import Mathlib

/-!
Verification development for the Objective-C Mach-O metadata patcher
(src/main.cpp).  Bytes are modelled as `Nat` (one per byte, 0 is the NUL
terminator) and buffers as `List Nat`.  Machine arithmetic that can wrap is
taken modulo 2 ^ 64 (or 2 ^ 32) explicitly.  Logging is observational and is
not modelled; the pseudorandom generator is modelled as an oracle stream of
draws together with a counter of draws consumed so far.
-/

abbrev Byte := Nat

/-- The bytes of a string literal, for concrete test inputs. -/
def strBytes (s : String) : List Byte :=
  s.toList.map Char.toNat

/-- Models `memcpy(buf + off, src, src.length)`: overwrite the bytes of `buf`
starting at offset `off` with the bytes of `src`. -/
def writeBytes (buf : List Byte) (off : Nat) (src : List Byte) : List Byte :=
  buf.take off ++ src ++ buf.drop (off + src.length)

/-- The 62-symbol alphanumeric charset of `generateRandomString`
(src/main.cpp:92-93), as bytes. -/
def charset : List Byte :=
  strBytes "abcdefghijklmnopqrstuvwxyzABCDEFGHIJKLMNOPQRSTUVWXYZ0123456789"

/-- Models `generateRandomString` (src/main.cpp:90-101).  The mt19937 generator
with its uniform distribution over charset indices is modelled by the oracle
`draw`; `ctr` counts the draws consumed by earlier calls in the same run. -/
def generateRandomString (draw : Nat → Fin 62) (ctr : Nat) (length : Nat) :
    List Byte :=
  (List.range length).map fun i => charset.getD (draw (ctr + i)).val 0

/-- Models `std::string::find(pat, pos)` on byte strings: the least index
`i ≥ pos` at which `pat` occurs wholly inside `s`, if any. -/
def findFrom (pat s : List Byte) (pos : Nat) : Option Nat :=
  if pos + pat.length ≤ s.length then
    if pat <+: s.drop pos then some pos else findFrom pat s (pos + 1)
  else none
termination_by s.length + 1 - pos
decreasing_by omega

/-- Models `std::string::replace(pos, count, rep)`: splice `rep` in place of the
`count` characters of `s` starting at `pos`. -/
def stringReplaceAt (s : List Byte) (pos count : Nat) (rep : List Byte) :
    List Byte :=
  s.take pos ++ rep ++ s.drop (pos + count)

/-- Models the replace loop of src/main.cpp:164-172 (repeated verbatim at
241-249): repeatedly find the pattern from the cursor, splice in the
replacement, move the cursor past the replacement, and record that a
replacement happened.  The C++ while loop terminates because a validated
pattern is nonempty; the fuel `s.length + 1` bounds its iteration count. -/
def replaceLoop (pat rep : List Byte) :
    Nat → List Byte → Nat → Bool → List Byte × Bool
  | 0, s, _, replaced => (s, replaced)
  | fuel + 1, s, pos, replaced =>
    match findFrom pat s pos with
    | none => (s, replaced)
    | some i =>
      replaceLoop pat rep fuel (stringReplaceAt s i pat.length rep)
        (i + rep.length) true

/-- The whole replace transformation applied to one string: the new string and
the `replaced` flag of src/main.cpp:167, starting the scan at position 0. -/
def replaceAll (pat rep s : List Byte) : List Byte × Bool :=
  replaceLoop pat rep (s.length + 1) s 0 false

/-- A Mach-O load command as far as `virtualAddressToFileOffset` inspects it:
the two segment-command layouts carry vmaddr/vmsize/fileoff, every other
command kind is skipped. -/
inductive LoadCommand where
  | segment64 (vmaddr vmsize fileoff : Nat) : LoadCommand
  | segment32 (vmaddr vmsize fileoff : Nat) : LoadCommand
  | otherCommand : LoadCommand
deriving DecidableEq

/-- Models `virtualAddressToFileOffset` (src/main.cpp:104-120).  The segment
fields and the virtual address are unsigned machine integers, so the range sum
and the returned offset are reduced modulo the machine width. -/
def virtualAddressToFileOffset : List LoadCommand → Nat → Option Nat
  | [], _ => none
  | .segment64 vmaddr vmsize fileoff :: rest, va =>
    if vmaddr ≤ va ∧ va < (vmaddr + vmsize) % 2 ^ 64 then
      some ((va - vmaddr + fileoff) % 2 ^ 64)
    else virtualAddressToFileOffset rest va
  | .segment32 vmaddr vmsize fileoff :: rest, va =>
    if vmaddr ≤ va ∧ va < (vmaddr + vmsize) % 2 ^ 32 then
      some ((va - vmaddr + fileoff) % 2 ^ 64)
    else virtualAddressToFileOffset rest va
  | .otherCommand :: rest, va => virtualAddressToFileOffset rest va

/-- The (vmaddr, vmsize, fileoff) triples of a slice's segment commands in
declaration order, both layouts included. -/
def segRanges : List LoadCommand → List (Nat × Nat × Nat)
  | [] => []
  | .segment64 a s f :: rest => (a, s, f) :: segRanges rest
  | .segment32 a s f :: rest => (a, s, f) :: segRanges rest
  | .otherCommand :: rest => segRanges rest

/-- Modelled from the spec's words (§4.1), for comparison with the code: return
for the first segment whose half-open range [vmaddr, vmaddr + vmsize) contains
the address the offset fileoff + (va - vmaddr); otherwise unresolved. -/
def resolveSpec (segs : List (Nat × Nat × Nat)) (va : Nat) : Option Nat :=
  (segs.find? fun t => decide (t.1 ≤ va ∧ va < t.1 + t.2.1)).map
    fun t => t.2.2 + (va - t.1)

/-- Models the validated configuration struct `CommandLineArgs`
(src/main.cpp:23-31); the binary path is handled by the external CLI layer. -/
structure CommandLineArgs where
  excludedClasses : List (List Byte)
  quietMode : Bool := false
  dryRun : Bool := false
  pattern : List Byte := []
  replacement : List Byte := []
deriving DecidableEq

/-- Models the entry-scanning loop of `patchClassNameSection`
(src/main.cpp:146-196).  `base` is SliceOffset + SectionFileOffset, the list
argument is the unscanned tail of the section contents, `pos` its position in
the section, `buf` the whole-file working buffer, `ctr` the draws consumed so
far.  A name is read up to its NUL terminator; string sections end in a
terminator, so the read stays inside the section. -/
def patchClassLoop (args : CommandLineArgs) (draw : Nat → Fin 62) (base : Nat) :
    List Byte → Nat → List Byte → Nat → List Byte × Nat
  | [], _, buf, ctr => (buf, ctr)
  | b :: rest, pos, buf, ctr =>
    if b = 0 then
      patchClassLoop args draw base rest (pos + 1) buf ctr
    else
      let name := b :: rest.takeWhile (fun c => c ≠ 0)
      if name ∈ args.excludedClasses then
        patchClassLoop args draw base (rest.drop name.length)
          (pos + name.length + 1) buf ctr
      else
        let realFileOffset := base + pos
        if args.pattern ≠ [] then
          let res := replaceAll args.pattern args.replacement name
          let buf1 := if res.2 then
              writeBytes buf realFileOffset (res.1.take name.length)
            else buf
          patchClassLoop args draw base (rest.drop name.length)
            (pos + name.length + 1) buf1 ctr
        else
          let buf1 :=
            writeBytes buf realFileOffset (generateRandomString draw ctr name.length)
          patchClassLoop args draw base (rest.drop name.length)
            (pos + name.length + 1) buf1 (ctr + name.length)
termination_by l => l.length
decreasing_by
  · simp
  · simp [List.length_drop]; omega
  · simp [List.length_drop]; omega
  · simp [List.length_drop]; omega

/-- The (position, name) pairs of the nonempty NUL-terminated entries of a
class-name section, in the same scan order as `patchClassLoop`. -/
def classEntries : List Byte → Nat → List (Nat × List Byte)
  | [], _ => []
  | b :: rest, pos =>
    if b = 0 then classEntries rest (pos + 1)
    else
      let name := b :: rest.takeWhile (fun c => c ≠ 0)
      (pos, name) :: classEntries (rest.drop name.length) (pos + name.length + 1)
termination_by l => l.length
decreasing_by
  · simp
  · simp [List.length_drop]; omega

/-- Models `patchClassNameSection` (src/main.cpp:124-197): an unreadable
section content returns without touching the buffer, otherwise the entries are
scanned with base SliceOffset + SectionFileOffset. -/
def patchClassNameSection (args : CommandLineArgs) (draw : Nat → Fin 62)
    (contentsOrErr : Except Unit (List Byte)) (sectionFileOffset sliceOffset : Nat)
    (buf : List Byte) (ctr : Nat) : List Byte × Nat :=
  match contentsOrErr with
  | .error _ => (buf, ctr)
  | .ok contents =>
    patchClassLoop args draw (sliceOffset + sectionFileOffset) contents 0 buf ctr

/-- Little-endian read of `ptrSize` bytes of `buf` at `off`, modelling the
pointer loads of src/main.cpp:218-219 and 226-227 on a little-endian host. -/
def readPtr (buf : List Byte) (off : Nat) : Nat → Nat
  | 0 => 0
  | n + 1 => buf.getD off 0 + 256 * readPtr buf (off + 1) n

/-- Read the NUL-terminated string of `buf` at `off` (the StringRef built at
src/main.cpp:234); the read stops at the terminator. -/
def readCString (buf : List Byte) (off : Nat) : List Byte :=
  (buf.drop off).takeWhile (fun c => c ≠ 0)

/-- `unsigned PtrSize = MachOObj->is64Bit() ? 8 : 4` (src/main.cpp:215). -/
def ptrSizeOf (is64 : Bool) : Nat :=
  if is64 then 8 else 4

/-- Models one iteration of the slot loop of `patchCategoryListSection`
(src/main.cpp:217-272): resolve the slot's category VA; read the category
record's first pointer-sized field from the ORIGINAL buffer `orig` at
SliceOffset + categoryFileOffset; resolve that name VA; read the
NUL-terminated name from `orig`; and apply the configured strategy to the
working buffer `buf` at the resolved name offset.  Unresolved addresses and an
empty name skip the slot. -/
def patchCatSlot (args : CommandLineArgs) (draw : Nat → Fin 62)
    (cmds : List LoadCommand) (sliceOffset : Nat) (orig : List Byte)
    (is64 : Bool) (catVA : Nat) (buf : List Byte) (ctr : Nat) :
    List Byte × Nat :=
  match virtualAddressToFileOffset cmds catVA with
  | none => (buf, ctr)
  | some catOff =>
    match virtualAddressToFileOffset cmds
        (readPtr orig (sliceOffset + catOff) (ptrSizeOf is64)) with
    | none => (buf, ctr)
    | some nameOff =>
      if readCString orig (sliceOffset + nameOff) = [] then (buf, ctr)
      else if args.pattern ≠ [] then
        if (replaceAll args.pattern args.replacement
            (readCString orig (sliceOffset + nameOff))).2 then
          (writeBytes buf (sliceOffset + nameOff)
            ((replaceAll args.pattern args.replacement
              (readCString orig (sliceOffset + nameOff))).1.take
              (readCString orig (sliceOffset + nameOff)).length), ctr)
        else (buf, ctr)
      else
        (writeBytes buf (sliceOffset + nameOff)
          (generateRandomString draw ctr
            (readCString orig (sliceOffset + nameOff)).length),
          ctr + (readCString orig (sliceOffset + nameOff)).length)

/-- Models the slot loop of `patchCategoryListSection` over the section
contents: `i` advances by the pointer size while a whole slot remains
(src/main.cpp:217). -/
def patchCatLoop (args : CommandLineArgs) (draw : Nat → Fin 62)
    (cmds : List LoadCommand) (sliceOffset : Nat) (orig : List Byte)
    (is64 : Bool) (contents : List Byte) (i : Nat) (buf : List Byte)
    (ctr : Nat) : List Byte × Nat :=
  if i + ptrSizeOf is64 ≤ contents.length then
    let catVA := readPtr contents i (ptrSizeOf is64)
    let res := patchCatSlot args draw cmds sliceOffset orig is64 catVA buf ctr
    patchCatLoop args draw cmds sliceOffset orig is64 contents
      (i + ptrSizeOf is64) res.1 res.2
  else (buf, ctr)
termination_by contents.length - i
decreasing_by cases is64 <;> simp [ptrSizeOf] at * <;> omega

/-- Models `patchCategoryListSection` (src/main.cpp:201-273): an unreadable
section content returns without touching the buffer, otherwise the slots are
walked from index 0. -/
def patchCategoryListSection (args : CommandLineArgs) (draw : Nat → Fin 62)
    (cmds : List LoadCommand) (sliceOffset : Nat) (orig : List Byte)
    (is64 : Bool) (contentsOrErr : Except Unit (List Byte)) (buf : List Byte)
    (ctr : Nat) : List Byte × Nat :=
  match contentsOrErr with
  | .error _ => (buf, ctr)
  | .ok contents =>
    patchCatLoop args draw cmds sliceOffset orig is64 contents 0 buf ctr

/-- One section of a slice as `patchMachOSlice` sees it: the result of
`Section.getName()`, the result of `Section.getContents()`, and the section
file offset read from its header. -/
structure SectionData where
  nameOrErr : Except Unit String
  contentsOrErr : Except Unit (List Byte)
  sectionFileOffset : Nat

/-- Models `patchMachOSlice` (src/main.cpp:277-301).  The Bool of the result
is `true` when a section-name lookup failed: the C++ function returns that
Error immediately (line 290), so the buffer state reached so far is kept and
the remaining sections are left unprocessed. -/
def patchMachOSlice (args : CommandLineArgs) (draw : Nat → Fin 62)
    (cmds : List LoadCommand) (sliceOffset : Nat) (orig : List Byte)
    (is64 : Bool) : List SectionData → List Byte → Nat → (List Byte × Nat) × Bool
  | [], buf, ctr => ((buf, ctr), false)
  | sec :: rest, buf, ctr =>
    match sec.nameOrErr with
    | .error _ => ((buf, ctr), true)
    | .ok sectionName =>
      if sectionName = "__objc_classname" then
        let res := patchClassNameSection args draw sec.contentsOrErr
          sec.sectionFileOffset sliceOffset buf ctr
        patchMachOSlice args draw cmds sliceOffset orig is64 rest res.1 res.2
      else if sectionName = "__objc_catlist" then
        let res := patchCategoryListSection args draw cmds sliceOffset orig
          is64 sec.contentsOrErr buf ctr
        patchMachOSlice args draw cmds sliceOffset orig is64 rest res.1 res.2
      else
        patchMachOSlice args draw cmds sliceOffset orig is64 rest buf ctr

/-- One architecture slice as main sees it: its load commands, bitness,
sections, and (for universal members) its byte-offset base in the file. -/
structure SliceObj where
  cmds : List LoadCommand
  is64 : Bool
  sections : List SectionData
  offset : Nat

/-- The container kind main distinguishes (src/main.cpp:333-354): a universal
binary whose members may each fail to parse, a thin Mach-O object, or an
unrecognized file. -/
inductive BinaryKind where
  | universal (slices : List (Except Unit SliceObj)) : BinaryKind
  | thin (slice : SliceObj) : BinaryKind
  | notMachO : BinaryKind

/-- Models the universal-binary loop of main (src/main.cpp:334-345): a member
that fails to parse is reported and skipped; a slice whose patching returns an
error is reported and the loop continues with the buffer state reached so
far. -/
def runSlices (args : CommandLineArgs) (draw : Nat → Fin 62) (orig : List Byte) :
    List (Except Unit SliceObj) → List Byte → Nat → List Byte × Nat
  | [], buf, ctr => (buf, ctr)
  | .error _ :: rest, buf, ctr => runSlices args draw orig rest buf ctr
  | .ok s :: rest, buf, ctr =>
    let res := patchMachOSlice args draw s.cmds s.offset orig s.is64 s.sections
      buf ctr
    runSlices args draw orig rest res.1.1 res.1.2

/-- The persistence step of main (src/main.cpp:356-370): dry-run discards the
working buffer and exits 0; otherwise the file is overwritten once with the
working buffer.  The result lists the file-overwrite operations performed. -/
def persistStep (args : CommandLineArgs) (buf : List Byte) :
    Nat × List (List Byte) :=
  if args.dryRun then (0, []) else (0, [buf])

/-- Models main after configuration parsing and file loading
(src/main.cpp:333-375): the working buffer starts as a copy of the original
bytes, each slice is patched in memory, and only then is the file persisted (or
discarded on dry-run).  Returns the exit code and the overwrites performed.
For a thin binary a slice error exits 1 with nothing written (line 349); a
file that is not Mach-O exits 1 (line 353). -/
def mainModel (args : CommandLineArgs) (draw : Nat → Fin 62) (bin : BinaryKind)
    (orig : List Byte) : Nat × List (List Byte) :=
  match bin with
  | .universal slices => persistStep args (runSlices args draw orig slices orig 0).1
  | .thin s =>
    let res := patchMachOSlice args draw s.cmds 0 orig s.is64 s.sections orig 0
    if res.2 then (1, []) else persistStep args res.1.1
  | .notMachO => (1, [])

/-- The working buffer after all slices of the container have been processed
in memory. -/
def finalWorkingBuffer (args : CommandLineArgs) (draw : Nat → Fin 62)
    (bin : BinaryKind) (orig : List Byte) : List Byte :=
  match bin with
  | .universal slices => (runSlices args draw orig slices orig 0).1
  | .thin s => (patchMachOSlice args draw s.cmds 0 orig s.is64 s.sections orig 0).1.1
  | .notMachO => orig

/-- Models the --replace validation callback of `parseCommandLine`
(src/main.cpp:61-75): with two replace tokens present, an empty pattern or a
length mismatch raises a validation error and parsing yields nothing;
otherwise the pattern and replacement are stored.  CLI11's `expected(2)`
rejects any other token count. -/
def applyReplaceOption (args : CommandLineArgs) (replaceArgs : List (List Byte)) :
    Option CommandLineArgs :=
  match replaceArgs with
  | [] => some args
  | [p, r] =>
    if p = [] then none
    else if p.length ≠ r.length then none
    else some { args with pattern := p, replacement := r }
  | _ => none

/-- Models main including the parse step (src/main.cpp:305-314): a parse or
validation failure exits 1 before the file is even loaded, so nothing is
written. -/
def mainWithParse (parsed : Option CommandLineArgs) (draw : Nat → Fin 62)
    (bin : BinaryKind) (orig : List Byte) : Nat × List (List Byte) :=
  match parsed with
  | none => (1, [])
  | some args => mainModel args draw bin orig

/-- The name scanned at a nonzero head byte: up to the NUL terminator. -/
def scanName (b : Byte) (rest : List Byte) : List Byte :=
  b :: rest.takeWhile (fun c => c ≠ 0)

/-- No-wraparound side conditions on a segment command: the range sum stays
inside its machine width and the produced file offset fits in 64 bits (real
Mach-O load commands satisfy these). -/
def wfCommand : LoadCommand → Prop
  | .segment64 a s f => a + s < 2 ^ 64 ∧ f + s ≤ 2 ^ 64
  | .segment32 a s f => a + s < 2 ^ 32 ∧ f + s ≤ 2 ^ 64
  | .otherCommand => True

/-- A one-segment slice (32-bit layout) used by concrete examples: vmaddr 4096,
vmsize 256, fileoff 0. -/
def catCmds : List LoadCommand :=
  [.segment32 4096 256 0]

/-- A small file image for category-slot examples: a 4-byte category record at
file offset 0 whose first pointer-sized field is the little-endian VA 0x1010,
which resolves to file offset 16, where the name bytes "AB" live. -/
def catOrig : List Byte :=
  [16, 16, 0, 0] ++ List.replicate 12 0 ++ [65, 66, 0]

/-- A section whose name lookup (and content read) fails. -/
def badSec : SectionData :=
  ⟨.error (), .error (), 0⟩

/-- A readable class-name section holding the single entry "Foo". -/
def goodSec : SectionData :=
  ⟨.ok "__objc_classname", .ok (strBytes "Foo" ++ [0]), 0⟩

/-- A validated replace-mode configuration: pattern "Foo", replacement "Bar". -/
def argsReplaceFooBar : CommandLineArgs :=
  { excludedClasses := [], pattern := strBytes "Foo", replacement := strBytes "Bar" }

/-- A randomize-mode configuration with the dry-run flag set. -/
def argsDry : CommandLineArgs :=
  { excludedClasses := [], dryRun := true }

/-- A slice whose only section has a failing name lookup, so patching it
returns an error. -/
def badSlice : SliceObj :=
  ⟨[], true, [badSec], 0⟩

/-! ## Helper lemmas -/

theorem length_writeBytes (buf : List Byte) (off : Nat) (src : List Byte)
    (h : off + src.length ≤ buf.length) :
    (writeBytes buf off src).length = buf.length := by
  simp [writeBytes]
  omega

theorem length_le_length_writeBytes (buf : List Byte) (off : Nat)
    (src : List Byte) : buf.length ≤ (writeBytes buf off src).length := by
  simp [writeBytes]
  omega

theorem writeBytes_getD_below (buf : List Byte) (off : Nat) (src : List Byte)
    (k : Nat) (hk : k < off) (hkb : k < buf.length) :
    (writeBytes buf off src).getD k 0 = buf.getD k 0 := by
  have h1 : k < (buf.take off).length := by
    simp [List.length_take]
    omega
  simp only [writeBytes, List.getD_eq_getElem?_getD, List.append_assoc]
  rw [List.getElem?_append_left h1, List.getElem?_take_of_lt hk]

theorem writeBytes_getD_above (buf : List Byte) (off : Nat) (src : List Byte)
    (k : Nat) (hk : off + src.length ≤ k) :
    (writeBytes buf off src).getD k 0 = buf.getD k 0 := by
  have h1 : (buf.take off).length ≤ k := by
    simp [List.length_take]
    omega
  have h2 : src.length ≤ k - (buf.take off).length := by
    simp [List.length_take]
    omega
  simp only [writeBytes, List.getD_eq_getElem?_getD, List.append_assoc]
  rw [List.getElem?_append_right h1, List.getElem?_append_right h2,
    List.getElem?_drop]
  by_cases hoff : off ≤ buf.length
  · congr 2
    simp [List.length_take]
    omega
  · rw [List.getElem?_eq_none, List.getElem?_eq_none]
    · omega
    · simp [List.length_take]
      omega

theorem readPtr_congr (b1 b2 : List Byte) (off : Nat) (n : Nat)
    (h : ∀ j, j < n → b1.getD (off + j) 0 = b2.getD (off + j) 0) :
    readPtr b1 off n = readPtr b2 off n := by
  induction n generalizing off with
  | zero => rfl
  | succ m ih =>
    simp only [readPtr]
    have h0 : b1.getD off 0 = b2.getD off 0 := by
      simpa using h 0 (by omega)
    have hrec : readPtr b1 (off + 1) m = readPtr b2 (off + 1) m := by
      refine ih (off + 1) fun j hj => ?_
      have := h (j + 1) (by omega)
      simpa [Nat.add_assoc, Nat.add_comm 1 j] using this
    rw [h0, hrec]

theorem length_generateRandomString (draw : Nat → Fin 62) (ctr n : Nat) :
    (generateRandomString draw ctr n).length = n := by
  simp [generateRandomString]

theorem findFrom_some (pat s : List Byte) (pos i : Nat)
    (h : findFrom pat s pos = some i) :
    pos ≤ i ∧ i + pat.length ≤ s.length ∧ pat <+: s.drop i := by
  induction pos using findFrom.induct pat s with
  | case1 pos hle hpre =>
    rw [findFrom, if_pos hle, if_pos hpre] at h
    obtain rfl : pos = i := by simpa using h
    exact ⟨Nat.le_refl _, hle, hpre⟩
  | case2 pos hle hpre ih =>
    rw [findFrom, if_pos hle, if_neg hpre] at h
    obtain ⟨h1, h2, h3⟩ := ih h
    exact ⟨by omega, h2, h3⟩
  | case3 pos hle =>
    rw [findFrom, if_neg hle] at h
    exact absurd h (by simp)

theorem findFrom_none (pat s : List Byte) (pos : Nat)
    (h : findFrom pat s pos = none) :
    ∀ i, pos ≤ i → i + pat.length ≤ s.length → ¬ pat <+: s.drop i := by
  induction pos using findFrom.induct pat s with
  | case1 pos hle hpre =>
    rw [findFrom, if_pos hle, if_pos hpre] at h
    exact absurd h (by simp)
  | case2 pos hle hpre ih =>
    rw [findFrom, if_pos hle, if_neg hpre] at h
    intro i hpos hlen
    rcases Nat.eq_or_lt_of_le hpos with rfl | hlt
    · exact hpre
    · exact ih h i hlt hlen
  | case3 pos hle =>
    intro i hpos hlen
    omega

theorem findFrom_isSome_iff (pat s : List Byte) (pos : Nat) (hpat : pat ≠ []) :
    (findFrom pat s pos).isSome = true ↔ ∃ i, pos ≤ i ∧ pat <+: s.drop i := by
  constructor
  · intro h
    obtain ⟨i, hi⟩ := Option.isSome_iff_exists.mp h
    obtain ⟨h1, _, h3⟩ := findFrom_some pat s pos i hi
    exact ⟨i, h1, h3⟩
  · rintro ⟨i, hpos, hpre⟩
    cases hf : findFrom pat s pos with
    | some j => simp
    | none =>
      exfalso
      have hple : pat.length ≤ (s.drop i).length := hpre.length_le
      have hlen : i + pat.length ≤ s.length := by
        by_cases hi2 : i ≤ s.length
        · simp [List.length_drop] at hple
          omega
        · have hnil : s.drop i = [] := by
            rw [List.drop_eq_nil_iff]
            omega
          rw [hnil] at hpre
          exact absurd (List.prefix_nil.mp hpre) hpat
      exact findFrom_none pat s pos hf i hpos hlen hpre

theorem replaceLoop_length (pat rep : List Byte) (hlen : pat.length = rep.length) :
    ∀ fuel s pos replaced,
      ((replaceLoop pat rep fuel s pos replaced).1).length = s.length := by
  intro fuel
  induction fuel with
  | zero => intro s pos replaced; rfl
  | succ n ih =>
    intro s pos replaced
    simp only [replaceLoop]
    cases hf : findFrom pat s pos with
    | none => rfl
    | some i =>
      obtain ⟨_, h2, _⟩ := findFrom_some pat s pos i hf
      rw [ih]
      simp [stringReplaceAt]
      omega

theorem replaceLoop_replaced_true (pat rep : List Byte) :
    ∀ fuel s pos, (replaceLoop pat rep fuel s pos true).2 = true := by
  intro fuel
  induction fuel with
  | zero => intro s pos; rfl
  | succ n ih =>
    intro s pos
    simp only [replaceLoop]
    cases findFrom pat s pos with
    | none => rfl
    | some i => exact ih _ _

theorem replaceAll_length (pat rep s : List Byte)
    (hlen : pat.length = rep.length) :
    ((replaceAll pat rep s).1).length = s.length :=
  replaceLoop_length pat rep hlen _ s 0 false

theorem replaceAll_snd (pat rep s : List Byte) :
    (replaceAll pat rep s).2 = (findFrom pat s 0).isSome := by
  unfold replaceAll
  simp only [replaceLoop]
  cases hf : findFrom pat s 0 with
  | none => simp
  | some i => simp [replaceLoop_replaced_true]

theorem replaceAll_snd_iff (pat rep s : List Byte) (hpat : pat ≠ []) :
    (replaceAll pat rep s).2 = true ↔ ∃ i, pat <+: s.drop i := by
  rw [replaceAll_snd, findFrom_isSome_iff pat s 0 hpat]
  constructor
  · rintro ⟨i, _, hpre⟩
    exact ⟨i, hpre⟩
  · rintro ⟨i, hpre⟩
    exact ⟨i, Nat.zero_le i, hpre⟩

theorem patchClassLoop_nil (args : CommandLineArgs) (draw : Nat → Fin 62)
    (base pos : Nat) (buf : List Byte) (ctr : Nat) :
    patchClassLoop args draw base [] pos buf ctr = (buf, ctr) := by
  rw [patchClassLoop.eq_def]

theorem patchClassLoop_cons (args : CommandLineArgs) (draw : Nat → Fin 62)
    (base : Nat) (b : Byte) (rest : List Byte) (pos : Nat) (buf : List Byte)
    (ctr : Nat) :
    patchClassLoop args draw base (b :: rest) pos buf ctr =
      if b = 0 then patchClassLoop args draw base rest (pos + 1) buf ctr
      else if scanName b rest ∈ args.excludedClasses then
        patchClassLoop args draw base (rest.drop (scanName b rest).length)
          (pos + (scanName b rest).length + 1) buf ctr
      else if args.pattern ≠ [] then
        patchClassLoop args draw base (rest.drop (scanName b rest).length)
          (pos + (scanName b rest).length + 1)
          (if (replaceAll args.pattern args.replacement (scanName b rest)).2 then
            writeBytes buf (base + pos)
              ((replaceAll args.pattern args.replacement (scanName b rest)).1.take
                (scanName b rest).length)
          else buf) ctr
      else
        patchClassLoop args draw base (rest.drop (scanName b rest).length)
          (pos + (scanName b rest).length + 1)
          (writeBytes buf (base + pos)
            (generateRandomString draw ctr (scanName b rest).length))
          (ctr + (scanName b rest).length) := by
  rw [patchClassLoop.eq_def]
  rfl

theorem classEntries_nil (pos : Nat) : classEntries [] pos = [] := by
  rw [classEntries.eq_def]

theorem classEntries_cons (b : Byte) (rest : List Byte) (pos : Nat) :
    classEntries (b :: rest) pos =
      if b = 0 then classEntries rest (pos + 1)
      else (pos, scanName b rest) ::
        classEntries (rest.drop (scanName b rest).length)
          (pos + (scanName b rest).length + 1) := by
  rw [classEntries.eq_def]
  rfl

theorem classEntries_le_pos :
    ∀ (l : List Byte) (pos p : Nat) (name : List Byte),
      (p, name) ∈ classEntries l pos → pos ≤ p := by
  intro l pos
  induction l, pos using classEntries.induct with
  | case1 pos => intro p name h; rw [classEntries_nil] at h; simp at h
  | case2 rest pos ih =>
    intro p name h
    rw [classEntries_cons, if_pos rfl] at h
    have := ih p name h
    omega
  | case3 b rest pos hb nm ih =>
    intro p name h
    rw [classEntries_cons, if_neg hb] at h
    rcases List.mem_cons.mp h with h1 | h2
    · have : p = pos := congrArg Prod.fst h1
      omega
    · have := ih p name h2
      omega


theorem patchClassLoop_frame_aux (args : CommandLineArgs) (draw : Nat → Fin 62)
    (base : Nat) :
    ∀ (n : Nat) (l : List Byte), l.length ≤ n → ∀ (pos : Nat) (buf : List Byte)
      (ctr k : Nat), k < base + pos → k < buf.length →
      ((patchClassLoop args draw base l pos buf ctr).1).getD k 0 = buf.getD k 0 := by
  intro n
  induction n with
  | zero =>
    intro l hl pos buf ctr k hk hkb
    have : l = [] := List.length_eq_zero.mp (Nat.le_zero.mp hl)
    subst this
    rw [patchClassLoop_nil]
  | succ n ih =>
    intro l hl pos buf ctr k hk hkb
    match l with
    | [] => rw [patchClassLoop_nil]
    | b :: rest =>
      have hrest : rest.length ≤ n := by simp at hl; omega
      have hdrop : (rest.drop (scanName b rest).length).length ≤ n := by
        simp [List.length_drop] at hrest ⊢
        omega
      rw [patchClassLoop_cons]
      by_cases hb : b = 0
      · rw [if_pos hb]
        exact ih rest hrest (pos + 1) buf ctr k (by omega) hkb
      · rw [if_neg hb]
        by_cases hmem : scanName b rest ∈ args.excludedClasses
        · rw [if_pos hmem]
          exact ih _ hdrop _ buf ctr k (by omega) hkb
        · rw [if_neg hmem]
          by_cases hpat : args.pattern ≠ []
          · rw [if_pos hpat]
            by_cases hr : (replaceAll args.pattern args.replacement (scanName b rest)).2
            · rw [if_pos hr]
              rw [ih _ hdrop _ _ ctr k (by omega)
                (Nat.lt_of_lt_of_le hkb (length_le_length_writeBytes buf _ _))]
              exact writeBytes_getD_below buf _ _ k (by omega) hkb
            · rw [if_neg hr]
              exact ih _ hdrop _ buf ctr k (by omega) hkb
          · rw [if_neg hpat]
            rw [ih _ hdrop _ _ _ k (by omega)
              (Nat.lt_of_lt_of_le hkb (length_le_length_writeBytes buf _ _))]
            exact writeBytes_getD_below buf _ _ k (by omega) hkb

theorem patchClassLoop_frame (args : CommandLineArgs) (draw : Nat → Fin 62)
    (base : Nat) (l : List Byte) (pos : Nat) (buf : List Byte) (ctr k : Nat)
    (hk : k < base + pos) (hkb : k < buf.length) :
    ((patchClassLoop args draw base l pos buf ctr).1).getD k 0 = buf.getD k 0 :=
  patchClassLoop_frame_aux args draw base l.length l (Nat.le_refl _) pos buf ctr
    k hk hkb

theorem patchClassLoop_excluded_aux (args : CommandLineArgs) (draw : Nat → Fin 62)
    (base : Nat) :
    ∀ (n : Nat) (l : List Byte), l.length ≤ n → ∀ (pos : Nat) (buf : List Byte)
      (ctr p : Nat) (name : List Byte),
      (p, name) ∈ classEntries l pos → name ∈ args.excludedClasses →
      ∀ j, j ≤ name.length → base + p + j < buf.length →
      ((patchClassLoop args draw base l pos buf ctr).1).getD (base + p + j) 0
        = buf.getD (base + p + j) 0 := by
  intro n
  induction n with
  | zero =>
    intro l hl pos buf ctr p name h
    have : l = [] := List.length_eq_zero.mp (Nat.le_zero.mp hl)
    subst this
    rw [classEntries_nil] at h
    simp at h
  | succ n ih =>
    intro l hl pos buf ctr p name h hx j hj hjb
    match l with
    | [] =>
      rw [classEntries_nil] at h
      simp at h
    | b :: rest =>
      have hrest : rest.length ≤ n := by simp at hl; omega
      have hdrop : (rest.drop (scanName b rest).length).length ≤ n := by
        simp [List.length_drop] at hrest ⊢
        omega
      rw [patchClassLoop_cons]
      by_cases hb : b = 0
      · rw [if_pos hb]
        rw [classEntries_cons, if_pos hb] at h
        exact ih rest hrest (pos + 1) buf ctr p name h hx j hj hjb
      · rw [if_neg hb]
        rw [classEntries_cons, if_neg hb] at h
        rcases List.mem_cons.mp h with h1 | h2
        · -- this entry is the scanned head entry
          have hp : p = pos := congrArg Prod.fst h1
          have hn : name = scanName b rest := congrArg Prod.snd h1
          subst hp
          rw [if_pos (hn ▸ hx)]
          exact patchClassLoop_frame args draw base _ _ buf ctr (base + p + j)
            (by have := congrArg List.length hn; omega) hjb
        · -- the entry lies further in the scan
          have hple : pos + (scanName b rest).length + 1 ≤ p :=
            classEntries_le_pos _ _ p name h2
          by_cases hmem : scanName b rest ∈ args.excludedClasses
          · rw [if_pos hmem]
            exact ih _ hdrop _ buf ctr p name h2 hx j hj hjb
          · rw [if_neg hmem]
            by_cases hpat : args.pattern ≠ []
            · rw [if_pos hpat]
              set w : List Byte :=
                if (replaceAll args.pattern args.replacement (scanName b rest)).2 then
                  (replaceAll args.pattern args.replacement (scanName b rest)).1.take
                    (scanName b rest).length
                else [] with hw
              have hwlen : w.length ≤ (scanName b rest).length := by
                rw [hw]
                split
                · exact le_trans (List.length_take_le _ _) (Nat.le_refl _)
                · simp
              by_cases hr : (replaceAll args.pattern args.replacement (scanName b rest)).2
              · rw [if_pos hr]
                rw [ih _ hdrop _ _ ctr p name h2 hx j hj
                  (Nat.lt_of_lt_of_le hjb (length_le_length_writeBytes buf _ _))]
                refine writeBytes_getD_above buf _ _ _ ?_
                have : ((replaceAll args.pattern args.replacement
                    (scanName b rest)).1.take (scanName b rest).length).length
                    ≤ (scanName b rest).length := List.length_take_le _ _
                omega
              · rw [if_neg hr]
                exact ih _ hdrop _ buf ctr p name h2 hx j hj hjb
            · rw [if_neg hpat]
              rw [ih _ hdrop _ _ _ p name h2 hx j hj
                (Nat.lt_of_lt_of_le hjb (length_le_length_writeBytes buf _ _))]
              refine writeBytes_getD_above buf _ _ _ ?_
              rw [length_generateRandomString]
              omega

theorem takeWhile_ne_zero_append (t : List Byte) (h : (0 : Byte) ∉ t)
    (u : List Byte) :
    (t ++ 0 :: u).takeWhile (fun c => c ≠ 0) = t := by
  induction t with
  | nil => simp
  | cons a t ih =>
    simp only [List.mem_cons, not_or] at h
    obtain ⟨ha, ht⟩ := h
    have ha2 : a ≠ 0 := fun hc => ha hc.symm
    simp [List.takeWhile_cons, ha2]
    simpa using ih ht

theorem patchClassLoop_single (args : CommandLineArgs) (draw : Nat → Fin 62)
    (base : Nat) (name : List Byte) (pos : Nat) (buf : List Byte) (ctr : Nat)
    (hne : name ≠ []) (h0 : (0 : Byte) ∉ name) :
    patchClassLoop args draw base (name ++ [0]) pos buf ctr =
      if name ∈ args.excludedClasses then (buf, ctr)
      else if args.pattern ≠ [] then
        (if (replaceAll args.pattern args.replacement name).2 then
          writeBytes buf (base + pos)
            ((replaceAll args.pattern args.replacement name).1.take name.length)
        else buf, ctr)
      else
        (writeBytes buf (base + pos) (generateRandomString draw ctr name.length),
          ctr + name.length) := by
  match name, hne with
  | b :: t, _ =>
    have hb : b ≠ 0 := by
      intro hc
      exact h0 (hc ▸ List.mem_cons_self b t)
    have h0t : (0 : Byte) ∉ t := fun hc => h0 (List.mem_cons_of_mem b hc)
    have hscan : scanName b (t ++ [0]) = b :: t := by
      unfold scanName
      rw [takeWhile_ne_zero_append t h0t []]
    have hdrop : (t ++ [0]).drop (b :: t).length = [] := by
      rw [List.drop_eq_nil_iff]
      simp
    show patchClassLoop args draw base (b :: (t ++ [0])) pos buf ctr = _
    rw [patchClassLoop_cons, hscan, hdrop]
    simp only [patchClassLoop_nil, if_neg hb]

theorem patchCatSlot_resolved (args : CommandLineArgs) (draw : Nat → Fin 62)
    (cmds : List LoadCommand) (sliceOffset : Nat) (orig : List Byte)
    (is64 : Bool) (catVA : Nat) (buf : List Byte) (ctr : Nat)
    (catOff nameOff : Nat)
    (hcat : virtualAddressToFileOffset cmds catVA = some catOff)
    (hname : virtualAddressToFileOffset cmds
      (readPtr orig (sliceOffset + catOff) (ptrSizeOf is64)) = some nameOff)
    (hne : readCString orig (sliceOffset + nameOff) ≠ []) :
    patchCatSlot args draw cmds sliceOffset orig is64 catVA buf ctr =
      if args.pattern ≠ [] then
        (if (replaceAll args.pattern args.replacement
              (readCString orig (sliceOffset + nameOff))).2 then
          writeBytes buf (sliceOffset + nameOff)
            ((replaceAll args.pattern args.replacement
              (readCString orig (sliceOffset + nameOff))).1.take
              (readCString orig (sliceOffset + nameOff)).length)
        else buf, ctr)
      else
        (writeBytes buf (sliceOffset + nameOff)
          (generateRandomString draw ctr
            (readCString orig (sliceOffset + nameOff)).length),
          ctr + (readCString orig (sliceOffset + nameOff)).length) := by
  unfold patchCatSlot
  simp only [hcat, hname]
  rw [if_neg hne]
  split
  · split <;> rfl
  · rfl

theorem patchCatSlot_frame (args : CommandLineArgs) (draw : Nat → Fin 62)
    (cmds : List LoadCommand) (sliceOffset : Nat) (orig : List Byte)
    (is64 : Bool) (catVA : Nat) (buf : List Byte) (ctr : Nat)
    (catOff nameOff : Nat)
    (hcat : virtualAddressToFileOffset cmds catVA = some catOff)
    (hname : virtualAddressToFileOffset cmds
      (readPtr orig (sliceOffset + catOff) (ptrSizeOf is64)) = some nameOff)
    (hne : readCString orig (sliceOffset + nameOff) ≠ []) (k : Nat)
    (hk : (k < sliceOffset + nameOff ∧ k < buf.length)
      ∨ sliceOffset + nameOff
        + (readCString orig (sliceOffset + nameOff)).length ≤ k) :
    ((patchCatSlot args draw cmds sliceOffset orig is64 catVA buf ctr).1).getD k 0
      = buf.getD k 0 := by
  rw [patchCatSlot_resolved args draw cmds sliceOffset orig is64 catVA buf ctr
    catOff nameOff hcat hname hne]
  have hwrite : ∀ src : List Byte,
      src.length ≤ (readCString orig (sliceOffset + nameOff)).length →
      (writeBytes buf (sliceOffset + nameOff) src).getD k 0 = buf.getD k 0 := by
    intro src hsrc
    rcases hk with ⟨hk1, hk2⟩ | hk1
    · exact writeBytes_getD_below buf _ src k hk1 hk2
    · exact writeBytes_getD_above buf _ src k (by omega)
  split
  · split
    · exact hwrite _ (List.length_take_le _ _)
    · rfl
  · simp only []
    exact hwrite _ (by rw [length_generateRandomString])

theorem resolveSpec_cons_pos (t : Nat × Nat × Nat) (L : List (Nat × Nat × Nat))
    (va : Nat) (h : t.1 ≤ va ∧ va < t.1 + t.2.1) :
    resolveSpec (t :: L) va = some (t.2.2 + (va - t.1)) := by
  unfold resolveSpec
  rw [List.find?_cons_of_pos _ (by simpa using h)]
  rfl

theorem resolveSpec_cons_neg (t : Nat × Nat × Nat) (L : List (Nat × Nat × Nat))
    (va : Nat) (h : ¬(t.1 ≤ va ∧ va < t.1 + t.2.1)) :
    resolveSpec (t :: L) va = resolveSpec L va := by
  unfold resolveSpec
  rw [List.find?_cons_of_neg _ (by simpa using h)]

theorem vaToFileOffset_eq_resolveSpec (cmds : List LoadCommand) (va : Nat)
    (hwf : ∀ c ∈ cmds, wfCommand c) :
    virtualAddressToFileOffset cmds va = resolveSpec (segRanges cmds) va := by
  induction cmds with
  | nil => rfl
  | cons c rest ih =>
    have hc : wfCommand c := hwf c (List.mem_cons_self c rest)
    have hrest : ∀ x ∈ rest, wfCommand x := fun x hx =>
      hwf x (List.mem_cons_of_mem c hx)
    cases c with
    | segment64 a s f =>
      obtain ⟨h1, h2⟩ := hc
      have hmod : (a + s) % 2 ^ 64 = a + s := Nat.mod_eq_of_lt h1
      by_cases hin : a ≤ va ∧ va < a + s
      · have hco : va - a + f < 2 ^ 64 := by omega
        simp only [virtualAddressToFileOffset, segRanges]
        rw [if_pos (by rw [hmod]; exact hin), resolveSpec_cons_pos _ _ _ hin,
          Nat.mod_eq_of_lt hco]
        show some (va - a + f) = some (f + (va - a))
        exact congrArg some (by omega)
      · simp only [virtualAddressToFileOffset, segRanges]
        rw [if_neg (by rw [hmod]; exact hin), resolveSpec_cons_neg _ _ _ hin]
        exact ih hrest
    | segment32 a s f =>
      obtain ⟨h1, h2⟩ := hc
      have hmod : (a + s) % 2 ^ 32 = a + s := Nat.mod_eq_of_lt h1
      by_cases hin : a ≤ va ∧ va < a + s
      · have hco : va - a + f < 2 ^ 64 := by omega
        simp only [virtualAddressToFileOffset, segRanges]
        rw [if_pos (by rw [hmod]; exact hin), resolveSpec_cons_pos _ _ _ hin,
          Nat.mod_eq_of_lt hco]
        show some (va - a + f) = some (f + (va - a))
        exact congrArg some (by omega)
      · simp only [virtualAddressToFileOffset, segRanges]
        rw [if_neg (by rw [hmod]; exact hin), resolveSpec_cons_neg _ _ _ hin]
        exact ih hrest
    | otherCommand =>
      simp only [virtualAddressToFileOffset, segRanges]
      exact ih hrest

/-! ## Claim theorems -/

/-- C1: for every string patched in either mode, the patched data has exactly
the byte length of the original string (the random string has the requested
length; the replace result keeps the string's length when pattern and
replacement have equal lengths), and the in-place overwrite changes neither
the buffer's length nor any byte outside the `src.length` bytes starting at
the write offset — in particular the terminator byte at
`off + src.length` and everything after it are unchanged. -/
theorem spec_c1_length_invariance :
    (∀ (draw : Nat → Fin 62) (ctr n : Nat),
        (generateRandomString draw ctr n).length = n)
    ∧ (∀ pat rep s : List Byte, pat.length = rep.length →
        ((replaceAll pat rep s).1).length = s.length)
    ∧ (∀ (buf : List Byte) (off : Nat) (src : List Byte),
        off + src.length ≤ buf.length →
        (writeBytes buf off src).length = buf.length)
    ∧ (∀ (buf : List Byte) (off : Nat) (src : List Byte) (k : Nat),
        off + src.length ≤ buf.length →
        (k < off ∨ off + src.length ≤ k) →
        (writeBytes buf off src).getD k 0 = buf.getD k 0) := by
  refine ⟨length_generateRandomString,
    fun pat rep s h => replaceAll_length pat rep s h, length_writeBytes, ?_⟩
  intro buf off src k h1 h2
  rcases h2 with h2 | h2
  · exact writeBytes_getD_below buf off src k h2 (by omega)
  · exact writeBytes_getD_above buf off src k h2

/-- Witness for C1 at concrete inputs. -/
theorem spec_c1_witness :
    (writeBytes [1, 2, 3, 4] 1 [9, 9]).getD 3 0 = ([1, 2, 3, 4] : List Byte).getD 3 0
    ∧ ((replaceAll [7] [8] [7, 7]).1).length = 2 :=
  ⟨spec_c1_length_invariance.2.2.2 [1, 2, 3, 4] 1 [9, 9] 3 (by decide)
      (Or.inr (by decide)),
    spec_c1_length_invariance.2.1 [7] [8] [7, 7] (by decide)⟩

/-- C4: address translation agrees with the spec's description (first segment
of the load commands, in declaration order and in either bitness, whose
half-open range [vmaddr, vmaddr + vmsize) contains the VA, mapping it to
fileoff + (va - vmaddr); no containing segment means unresolved, not an
error) whenever the segment fields do not overflow their machine widths; and
the spec's worked example holds: for segment {vmaddr=0x1000, vmsize=0x200,
fileoff=0x400}, VA 0x1050 maps to 0x450 and VA 0x1300 is unresolved. -/
theorem spec_c4_address_translation :
    (∀ (cmds : List LoadCommand) (va : Nat), (∀ c ∈ cmds, wfCommand c) →
        virtualAddressToFileOffset cmds va = resolveSpec (segRanges cmds) va)
    ∧ virtualAddressToFileOffset [.segment64 4096 512 1024] 4176 = some 1104
    ∧ virtualAddressToFileOffset [.segment64 4096 512 1024] 4864 = none :=
  ⟨vaToFileOffset_eq_resolveSpec, by decide, by decide⟩

/-- Witness for C4: the refinement applied to the spec's worked example. -/
theorem spec_c4_witness :
    virtualAddressToFileOffset [.segment64 4096 512 1024] 4176
      = resolveSpec (segRanges [.segment64 4096 512 1024]) 4176 :=
  spec_c4_address_translation.1 [.segment64 4096 512 1024] 4176
    (by
      intro c hc
      rcases List.mem_singleton.mp hc with rfl
      exact ⟨by norm_num, by norm_num⟩)

/-- C3: the replace strategy reports a change exactly when the pattern occurs
somewhere in the original string (the scan is left-to-right with the cursor
advanced past each replacement, as the definition of `replaceLoop` states);
the spec's example "FooBarFoo" with pattern "Foo" and replacement "Bar"
yields "BarBarBar" with the changed flag set; and in the class-name scan an
entry's bytes are written if and only if the flag reports a change. -/
theorem spec_c3_replace_semantics :
    (∀ pat rep s : List Byte, pat ≠ [] →
        ((replaceAll pat rep s).2 = true ↔ ∃ i, pat <+: s.drop i))
    ∧ replaceAll (strBytes "Foo") (strBytes "Bar") (strBytes "FooBarFoo")
        = (strBytes "BarBarBar", true)
    ∧ (∀ (args : CommandLineArgs) (draw : Nat → Fin 62) (base : Nat)
        (name : List Byte) (pos : Nat) (buf : List Byte) (ctr : Nat),
        name ≠ [] → (0 : Byte) ∉ name → name ∉ args.excludedClasses →
        args.pattern ≠ [] →
        patchClassLoop args draw base (name ++ [0]) pos buf ctr =
          (if (replaceAll args.pattern args.replacement name).2 then
            writeBytes buf (base + pos)
              ((replaceAll args.pattern args.replacement name).1.take name.length)
          else buf, ctr)) := by
  refine ⟨fun pat rep s h => replaceAll_snd_iff pat rep s h, ?_, ?_⟩
  · simp [replaceAll, replaceLoop, findFrom, stringReplaceAt, strBytes]
  · intro args draw base name pos buf ctr h1 h2 h3 h4
    rw [patchClassLoop_single args draw base name pos buf ctr h1 h2,
      if_neg h3, if_pos h4]

/-- Witness for C3 at concrete inputs. -/
theorem spec_c3_witness :
    ((replaceAll [1] [2] [1, 3]).2 = true ↔ ∃ i, [1] <+: ([1, 3] : List Byte).drop i)
    ∧ patchClassLoop { excludedClasses := [], pattern := [1], replacement := [2] }
        (fun _ => 0) 0 ([1, 3] ++ [0]) 0 [1, 3, 0] 0 =
        (if (replaceAll [1] [2] [1, 3]).2 then
          writeBytes [1, 3, 0] (0 + 0)
            ((replaceAll [1] [2] [1, 3]).1.take ([1, 3] : List Byte).length)
        else [1, 3, 0], 0) :=
  ⟨spec_c3_replace_semantics.1 [1] [2] [1, 3] (by decide),
    spec_c3_replace_semantics.2.2 _ _ 0 [1, 3] 0 [1, 3, 0] 0 (by decide)
      (by decide) (by decide) (by decide)⟩

/-- C5: any class-name entry whose exact text belongs to the exclusion set is
skipped: after the whole section scan, in any mode, every byte of that entry
(terminator included) in the working buffer is what it was before the run. -/
theorem spec_c5_exclusion_fidelity (args : CommandLineArgs) (draw : Nat → Fin 62)
    (sectionFileOffset sliceOffset : Nat) (contents buf : List Byte)
    (ctr p : Nat) (name : List Byte)
    (hentry : (p, name) ∈ classEntries contents 0)
    (hexcl : name ∈ args.excludedClasses) (j : Nat) (hj : j ≤ name.length)
    (hb : sliceOffset + sectionFileOffset + p + j < buf.length) :
    ((patchClassNameSection args draw (.ok contents) sectionFileOffset
          sliceOffset buf ctr).1).getD (sliceOffset + sectionFileOffset + p + j) 0
      = buf.getD (sliceOffset + sectionFileOffset + p + j) 0 := by
  unfold patchClassNameSection
  exact patchClassLoop_excluded_aux args draw (sliceOffset + sectionFileOffset)
    contents.length contents (Nat.le_refl _) 0 buf ctr p name hentry hexcl j hj hb

/-- Witness for C5: the excluded single entry "AB" is left untouched. -/
theorem spec_c5_witness :
    ((patchClassNameSection { excludedClasses := [[65, 66]] } (fun _ => 0)
          (.ok [65, 66, 0]) 0 0 [65, 66, 0] 0).1).getD (0 + 0 + 0 + 0) 0
      = ([65, 66, 0] : List Byte).getD (0 + 0 + 0 + 0) 0 :=
  spec_c5_exclusion_fidelity { excludedClasses := [[65, 66]] } (fun _ => 0) 0 0
    [65, 66, 0] [65, 66, 0] 0 0 [65, 66]
    (by rw [classEntries_cons]; simp [scanName])
    (by decide) 0 (by decide) (by decide)

/-- C6: a --replace directive whose pattern is empty or whose pattern and
replacement lengths differ is rejected by the validation callback, so parsing
yields nothing and main exits 1 before the binary is even inspected: no write
to the file is performed; in particular pattern "AB" / replacement "C" is
rejected. -/
theorem spec_c6_replace_validation :
    (∀ (base : CommandLineArgs) (p r : List Byte) (draw : Nat → Fin 62)
        (bin : BinaryKind) (orig : List Byte),
        p = [] ∨ p.length ≠ r.length →
        applyReplaceOption base [p, r] = none
        ∧ mainWithParse (applyReplaceOption base [p, r]) draw bin orig = (1, []))
    ∧ applyReplaceOption { excludedClasses := [] } [strBytes "AB", strBytes "C"]
        = none := by
  constructor
  · intro base p r draw bin orig h
    have hnone : applyReplaceOption base [p, r] = none := by
      by_cases hp : p = []
      · simp [applyReplaceOption, hp]
      · have hlen : p.length ≠ r.length := by tauto
        simp [applyReplaceOption, hp, hlen]
    exact ⟨hnone, by rw [hnone]; rfl⟩
  · decide

/-- Witness for C6: the spec's "AB"/"C" example, end to end. -/
theorem spec_c6_witness :
    applyReplaceOption { excludedClasses := [] } [strBytes "AB", strBytes "C"]
        = none
    ∧ mainWithParse (applyReplaceOption { excludedClasses := [] }
          [strBytes "AB", strBytes "C"]) (fun _ => 0) BinaryKind.notMachO []
        = (1, []) :=
  spec_c6_replace_validation.1 { excludedClasses := [] } (strBytes "AB")
    (strBytes "C") (fun _ => 0) BinaryKind.notMachO [] (Or.inr (by decide))

/-- C2: for a category-list slot whose pointer chain resolves, the record's
first pointer-sized field and the name string are read from the original
buffer `orig` (the resolution hypotheses and the written data mention only
`orig`); the only bytes written to the working buffer are the name's bytes at
the resolved offset (every other position is unchanged); consequently, as
long as the record's pointer field does not itself overlap the written name
bytes, that field is byte-identical after the slot is processed; and in each
mode the result is exactly the strategy's output computed from `orig`. -/
theorem spec_c2_category_reads_source (args : CommandLineArgs)
    (draw : Nat → Fin 62) (cmds : List LoadCommand) (sliceOffset : Nat)
    (orig : List Byte) (is64 : Bool) (catVA : Nat) (buf : List Byte) (ctr : Nat)
    (catOff nameOff : Nat)
    (hcat : virtualAddressToFileOffset cmds catVA = some catOff)
    (hname : virtualAddressToFileOffset cmds
      (readPtr orig (sliceOffset + catOff) (ptrSizeOf is64)) = some nameOff)
    (hne : readCString orig (sliceOffset + nameOff) ≠ []) :
    (∀ k, (k < sliceOffset + nameOff ∧ k < buf.length)
        ∨ sliceOffset + nameOff
          + (readCString orig (sliceOffset + nameOff)).length ≤ k →
      ((patchCatSlot args draw cmds sliceOffset orig is64 catVA buf ctr).1).getD k 0
        = buf.getD k 0)
    ∧ ((∀ j, j < ptrSizeOf is64 →
          (sliceOffset + catOff + j < sliceOffset + nameOff
            ∧ sliceOffset + catOff + j < buf.length)
          ∨ sliceOffset + nameOff
            + (readCString orig (sliceOffset + nameOff)).length
              ≤ sliceOffset + catOff + j) →
        readPtr ((patchCatSlot args draw cmds sliceOffset orig is64 catVA buf
            ctr).1) (sliceOffset + catOff) (ptrSizeOf is64)
          = readPtr buf (sliceOffset + catOff) (ptrSizeOf is64))
    ∧ (args.pattern = [] →
        patchCatSlot args draw cmds sliceOffset orig is64 catVA buf ctr
          = (writeBytes buf (sliceOffset + nameOff)
              (generateRandomString draw ctr
                (readCString orig (sliceOffset + nameOff)).length),
            ctr + (readCString orig (sliceOffset + nameOff)).length))
    ∧ (args.pattern ≠ [] →
        patchCatSlot args draw cmds sliceOffset orig is64 catVA buf ctr
          = if (replaceAll args.pattern args.replacement
                (readCString orig (sliceOffset + nameOff))).2 then
              (writeBytes buf (sliceOffset + nameOff)
                ((replaceAll args.pattern args.replacement
                  (readCString orig (sliceOffset + nameOff))).1.take
                  (readCString orig (sliceOffset + nameOff)).length), ctr)
            else (buf, ctr)) := by
  refine ⟨?_, ?_, ?_, ?_⟩
  · intro k hk
    exact patchCatSlot_frame args draw cmds sliceOffset orig is64 catVA buf ctr
      catOff nameOff hcat hname hne k hk
  · intro hdisj
    refine readPtr_congr _ _ (sliceOffset + catOff) (ptrSizeOf is64) ?_
    intro j hj
    exact patchCatSlot_frame args draw cmds sliceOffset orig is64 catVA buf ctr
      catOff nameOff hcat hname hne (sliceOffset + catOff + j) (hdisj j hj)
  · intro hpat
    rw [patchCatSlot_resolved args draw cmds sliceOffset orig is64 catVA buf ctr
      catOff nameOff hcat hname hne, if_neg (by simp [hpat])]
  · intro hpat
    rw [patchCatSlot_resolved args draw cmds sliceOffset orig is64 catVA buf ctr
      catOff nameOff hcat hname hne, if_pos hpat]
    split <;> rfl

/-- Witness for C2: the concrete category record of `catOrig` in randomize
mode: the name bytes at file offset 16 are overwritten, nothing else is. -/
theorem spec_c2_witness :
    patchCatSlot { excludedClasses := [] } (fun _ => 0) catCmds 0 catOrig false
        4096 catOrig 0
      = (writeBytes catOrig (0 + 16)
          (generateRandomString (fun _ => 0) 0
            (readCString catOrig (0 + 16)).length),
        0 + (readCString catOrig (0 + 16)).length) :=
  (spec_c2_category_reads_source { excludedClasses := [] } (fun _ => 0) catCmds
    0 catOrig false 4096 catOrig 0 0 16 (by decide) (by decide)
    (by decide)).2.2.1 rfl

/-- C9: category names are never checked against the exclusion set: the
category patcher's behavior is independent of `excludedClasses`; for a
resolved, non-empty category name the strategy is applied even when that
exact name is a member of the exclusion set (shown in randomize mode, whose
write is unconditional); by contrast, a class-name entry with the same
membership is skipped with its buffer untouched. -/
theorem spec_c9_no_exclusion_for_categories (args : CommandLineArgs)
    (draw : Nat → Fin 62) (cmds : List LoadCommand) (sliceOffset : Nat)
    (orig : List Byte) (is64 : Bool) (catVA : Nat) (buf : List Byte)
    (ctr : Nat) (excl : List (List Byte)) :
    (patchCatSlot { args with excludedClasses := excl } draw cmds sliceOffset
        orig is64 catVA buf ctr
      = patchCatSlot args draw cmds sliceOffset orig is64 catVA buf ctr)
    ∧ (∀ (catOff nameOff : Nat),
        virtualAddressToFileOffset cmds catVA = some catOff →
        virtualAddressToFileOffset cmds
          (readPtr orig (sliceOffset + catOff) (ptrSizeOf is64)) = some nameOff →
        readCString orig (sliceOffset + nameOff) ≠ [] →
        readCString orig (sliceOffset + nameOff) ∈ args.excludedClasses →
        args.pattern = [] →
        patchCatSlot args draw cmds sliceOffset orig is64 catVA buf ctr
          = (writeBytes buf (sliceOffset + nameOff)
              (generateRandomString draw ctr
                (readCString orig (sliceOffset + nameOff)).length),
            ctr + (readCString orig (sliceOffset + nameOff)).length))
    ∧ (∀ (base : Nat) (name : List Byte) (pos ctr2 : Nat),
        name ≠ [] → (0 : Byte) ∉ name → name ∈ args.excludedClasses →
        patchClassLoop args draw base (name ++ [0]) pos buf ctr2 = (buf, ctr2)) := by
  refine ⟨rfl, ?_, ?_⟩
  · intro catOff nameOff hcat hname hne _ hpat
    rw [patchCatSlot_resolved args draw cmds sliceOffset orig is64 catVA buf ctr
      catOff nameOff hcat hname hne, if_neg (by simp [hpat])]
  · intro base name pos ctr2 h1 h2 hmem
    rw [patchClassLoop_single args draw base name pos buf ctr2 h1 h2,
      if_pos hmem]

/-- Witness for C9: the name "AB" is in the exclusion set, yet the category
slot is still patched, while the class-name scan on the same name skips it. -/
theorem spec_c9_witness :
    patchCatSlot { excludedClasses := [[65, 66]] } (fun _ => 0) catCmds 0
        catOrig false 4096 catOrig 0
      = (writeBytes catOrig (0 + 16)
          (generateRandomString (fun _ => 0) 0
            (readCString catOrig (0 + 16)).length),
        0 + (readCString catOrig (0 + 16)).length)
    ∧ patchClassLoop { excludedClasses := [[65, 66]] } (fun _ => 0) 0
        ([65, 66] ++ [0]) 0 catOrig 0 = (catOrig, 0) :=
  ⟨(spec_c9_no_exclusion_for_categories { excludedClasses := [[65, 66]] }
      (fun _ => 0) catCmds 0 catOrig false 4096 catOrig 0 []).2.1 0 16
      (by decide) (by decide) (by decide) (by decide) rfl,
    (spec_c9_no_exclusion_for_categories { excludedClasses := [[65, 66]] }
      (fun _ => 0) catCmds 0 catOrig false 4096 catOrig 0 []).2.2 0 [65, 66] 0 0
      (by decide) (by decide) (by decide)⟩

/-- C7 counterexample: in a slice whose first section has a failing name
lookup, processing stops with an error and the following readable
"__objc_classname" section is NOT patched (the buffer comes back unchanged),
although patching that section alone would have changed the buffer — refuting
the claim that section-name lookup failures do not abort the slice. -/
theorem spec_c7_counterexample :
    patchMachOSlice argsReplaceFooBar (fun _ => 0) [] 0 (strBytes "Foo" ++ [0])
        true [badSec, goodSec] (strBytes "Foo" ++ [0]) 0
      = ((strBytes "Foo" ++ [0], 0), true)
    ∧ patchMachOSlice argsReplaceFooBar (fun _ => 0) [] 0 (strBytes "Foo" ++ [0])
        true [goodSec] (strBytes "Foo" ++ [0]) 0
      = ((strBytes "Bar" ++ [0], 0), false)
    ∧ strBytes "Bar" ++ [0] ≠ strBytes "Foo" ++ [0] := by
  refine ⟨?_, ?_, by decide⟩
  · simp [patchMachOSlice, badSec]
  · simp [patchMachOSlice, goodSec, patchClassNameSection, argsReplaceFooBar,
      patchClassLoop_cons, patchClassLoop_nil, scanName, strBytes, replaceAll,
      replaceLoop, findFrom, stringReplaceAt, writeBytes]

/-- C7 (amended): a section-content read failure is skipped and the remaining
sections of the slice are still processed, but a section-name lookup failure
aborts the slice: the function returns the error immediately, leaving the
remaining sections unexamined. -/
theorem spec_c7_section_errors (args : CommandLineArgs) (draw : Nat → Fin 62)
    (cmds : List LoadCommand) (sliceOffset : Nat) (orig : List Byte)
    (is64 : Bool) (sec : SectionData) (rest : List SectionData)
    (buf : List Byte) (ctr : Nat) :
    (sec.nameOrErr = .error () →
      patchMachOSlice args draw cmds sliceOffset orig is64 (sec :: rest) buf ctr
        = ((buf, ctr), true))
    ∧ (sec.nameOrErr = .ok "__objc_classname" → sec.contentsOrErr = .error () →
      patchMachOSlice args draw cmds sliceOffset orig is64 (sec :: rest) buf ctr
        = patchMachOSlice args draw cmds sliceOffset orig is64 rest buf ctr)
    ∧ (sec.nameOrErr = .ok "__objc_catlist" → sec.contentsOrErr = .error () →
      patchMachOSlice args draw cmds sliceOffset orig is64 (sec :: rest) buf ctr
        = patchMachOSlice args draw cmds sliceOffset orig is64 rest buf ctr) := by
  refine ⟨?_, ?_, ?_⟩
  · intro h
    simp [patchMachOSlice, h]
  · intro h1 h2
    simp [patchMachOSlice, patchClassNameSection, h1, h2]
  · intro h1 h2
    simp [patchMachOSlice, patchCategoryListSection, h1, h2]

/-- Witness for C7 (amended) at concrete sections. -/
theorem spec_c7_witness :
    patchMachOSlice argsDry (fun _ => 0) [] 0 [] true [badSec] [] 0
      = (([], 0), true)
    ∧ patchMachOSlice argsDry (fun _ => 0) [] 0 [] true
        [⟨.ok "__objc_classname", .error (), 0⟩] [] 0
      = patchMachOSlice argsDry (fun _ => 0) [] 0 [] true [] [] 0 :=
  ⟨(spec_c7_section_errors argsDry (fun _ => 0) [] 0 [] true badSec [] [] 0).1
      rfl,
    (spec_c7_section_errors argsDry (fun _ => 0) [] 0 [] true
      ⟨.ok "__objc_classname", .error (), 0⟩ [] [] 0).2.1 rfl rfl⟩

/-- C8 counterexample: with dryRun set, a thin binary whose single slice fails
to patch (section-name lookup error) makes the process exit 1, not 0 —
refuting the claim's "exits successfully" part.  (No bytes are written, so
the no-write part is not contradicted.) -/
theorem spec_c8_counterexample :
    argsDry.dryRun = true
    ∧ mainModel argsDry (fun _ => 0) (.thin badSlice) [] = (1, []) :=
  ⟨rfl, rfl⟩

/-- C8 (amended): when dryRun is true no overwrite of the file is performed in
any mode and on any input; the dry run exits 0 provided the binary was
recognized (universal containers always; a thin binary when its slice patches
without error); and in all cases the file is overwritten at most once, with
exactly the working buffer obtained after all slices have been processed. -/
theorem spec_c8_dry_run_and_single_persist (args : CommandLineArgs)
    (draw : Nat → Fin 62) (bin : BinaryKind) (orig : List Byte) :
    (args.dryRun = true → (mainModel args draw bin orig).2 = [])
    ∧ (args.dryRun = true → ∀ slices, bin = .universal slices →
        mainModel args draw bin orig = (0, []))
    ∧ (args.dryRun = true → ∀ s, bin = .thin s →
        (patchMachOSlice args draw s.cmds 0 orig s.is64 s.sections orig 0).2
          = false →
        mainModel args draw bin orig = (0, []))
    ∧ ((mainModel args draw bin orig).2 = []
      ∨ (mainModel args draw bin orig).2
        = [finalWorkingBuffer args draw bin orig]) := by
  refine ⟨?_, ?_, ?_, ?_⟩
  · intro hd
    cases bin with
    | universal slices => simp [mainModel, persistStep, hd]
    | thin s =>
      simp only [mainModel]
      split
      · rfl
      · simp [persistStep, hd]
    | notMachO => rfl
  · rintro hd slices rfl
    simp [mainModel, persistStep, hd]
  · rintro hd s rfl herr
    simp [mainModel, persistStep, hd, herr]
  · cases bin with
    | universal slices =>
      simp only [mainModel, persistStep, finalWorkingBuffer]
      split
      · exact Or.inl rfl
      · exact Or.inr rfl
    | thin s =>
      simp only [mainModel, finalWorkingBuffer]
      split
      · exact Or.inl rfl
      · simp only [persistStep]
        split
        · exact Or.inl rfl
        · exact Or.inr rfl
    | notMachO => exact Or.inl rfl

/-- Witness for C8 (amended) at a concrete dry run. -/
theorem spec_c8_witness :
    mainModel argsDry (fun _ => 0) (.universal []) [] = (0, [])
    ∧ (mainModel argsDry (fun _ => 0) (.thin badSlice) []).2 = [] :=
  ⟨(spec_c8_dry_run_and_single_persist argsDry (fun _ => 0) (.universal [])
      []).2.1 rfl [] rfl,
    (spec_c8_dry_run_and_single_persist argsDry (fun _ => 0) (.thin badSlice)
      []).1 rfl⟩

/-- C10: error handling for slice patching differs by container kind: a
universal binary never aborts on a failing slice — the loop continues (the
error is only reported) and, outside dry-run, the working buffer reached is
persisted and the process exits 0 — whereas a thin binary whose slice
patching errors exits 1 and nothing is written. -/
theorem spec_c10_container_error_asymmetry (args : CommandLineArgs)
    (draw : Nat → Fin 62) (orig : List Byte) :
    (∀ slices, args.dryRun = false →
        mainModel args draw (.universal slices) orig
          = (0, [(runSlices args draw orig slices orig 0).1]))
    ∧ (∀ s : SliceObj,
        (patchMachOSlice args draw s.cmds 0 orig s.is64 s.sections orig 0).2
          = true →
        mainModel args draw (.thin s) orig = (1, []))
    ∧ (∀ (s : SliceObj) (rest : List (Except Unit SliceObj)) (buf : List Byte)
        (ctr : Nat),
        runSlices args draw orig (.ok s :: rest) buf ctr
          = runSlices args draw orig rest
            (patchMachOSlice args draw s.cmds s.offset orig s.is64 s.sections
              buf ctr).1.1
            (patchMachOSlice args draw s.cmds s.offset orig s.is64 s.sections
              buf ctr).1.2) := by
  refine ⟨?_, ?_, ?_⟩
  · intro slices hd
    simp [mainModel, persistStep, hd]
  · intro s herr
    simp [mainModel, herr]
  · intro s rest buf ctr
    rfl

/-- Witness for C10: a universal container holding one failing slice persists
and exits 0; the same failing slice as a thin binary exits 1 with no write. -/
theorem spec_c10_witness :
    mainModel { excludedClasses := [] } (fun _ => 0) (.universal [.ok badSlice])
        []
      = (0, [(runSlices { excludedClasses := [] } (fun _ => 0) []
          [.ok badSlice] [] 0).1])
    ∧ mainModel { excludedClasses := [] } (fun _ => 0) (.thin badSlice) []
      = (1, []) :=
  ⟨(spec_c10_container_error_asymmetry { excludedClasses := [] } (fun _ => 0)
      []).1 [.ok badSlice] rfl,
    (spec_c10_container_error_asymmetry { excludedClasses := [] } (fun _ => 0)
      []).2.1 badSlice rfl⟩
